import Mathlib

/-!
Verification of the Retail ETL pipeline (`src/etl_pipeline.py`).

The pipeline moves tabular transaction records through four stages:
extract (file reading dispatched on filename suffix), transform (dedup,
null-drop, date parsing, derived-field computation, numeric coercion,
positivity filtering), validate (summary statistics), and load (chunked
writes to a relational destination).

Tables are modelled as a column-name list plus a list of rows, each row an
association list from column name to cell value, mirroring a pandas
DataFrame.  External pandas / sqlalchemy primitives (element-wise parsing,
numeric coercion, `to_sql` writes, file readers) are modelled as explicit
function parameters or failure oracles so that every theorem quantifies
over their behaviour.
-/

deriving instance DecidableEq for Except

namespace RetailETL

/-- A cell value of a table.  `null` models a missing value (pandas
`NaN`/`NaT`/`None`), `num` a numeric value (modelled as an exact integer:
no claim under verification depends on fractional or floating-point
behaviour), `date` a parsed datetime (pandas `Timestamp`, abstracted to a
tick count), `str` raw text. -/
inductive Value where
  | null
  | str (s : String)
  | num (q : Int)
  | date (d : Nat)
deriving DecidableEq

/-- A row of a table: an association list from column name to value.
In a well-formed table every row lists exactly the table's columns, in
order. -/
abbrev Row := List (String × Value)

/-- Cell lookup: value of column `c` in row `r`; a missing key reads as
`Value.null` (a well-formed table never hits this default). -/
def getVal (r : Row) (c : String) : Value :=
  match r with
  | [] => Value.null
  | (k, v) :: rest => if k = c then v else getVal rest c

/-- Column assignment at row level, mirroring pandas `df[c] = ...` seen
from one row: overwrite the (first) existing entry for `c`, or append a
new entry at the end when the column is new. -/
def setVal (r : Row) (c : String) (v : Value) : Row :=
  match r with
  | [] => [(c, v)]
  | (k, w) :: rest => if k = c then (k, v) :: rest else (k, w) :: setVal rest c v

/-- The column names a row actually carries. -/
def keys (r : Row) : List String := r.map Prod.fst

/-- pandas `isnull` on one cell. -/
def isna (v : Value) : Bool := v = Value.null

/-- pandas element-wise comparison `v > 0` as used by the positivity
filters: true only for a positive numeric value; `NaN` (and anything
non-numeric) compares false. -/
def gt0 (v : Value) : Bool :=
  match v with
  | Value.num q => 0 < q
  | _ => false

/-- Whether a cell already holds a parsed datetime. -/
def isDate (v : Value) : Bool :=
  match v with
  | Value.date _ => true
  | _ => false

/-- pandas element-wise multiplication as used for
`df['quantity'] * df['price']` (spec §4.1 step 4): the product of two
numeric values, and an invalid (not-a-number) result when either operand
is not numeric. -/
def mulVal (a b : Value) : Value :=
  match a, b with
  | Value.num x, Value.num y => Value.num (x * y)
  | _, _ => Value.null

/-- One cell of `pd.to_numeric(col, errors='coerce')`: the element-wise
parser `pN` is a model parameter (pandas internals are external); a value
it cannot parse becomes the explicit missing marker instead of raising. -/
def toNumOrNull (pN : Value → Option Int) (v : Value) : Value :=
  match pN v with
  | some q => Value.num q
  | none => Value.null

/-- A table: ordered column names plus ordered rows (a pandas DataFrame). -/
structure Table where
  cols : List String
  rows : List Row
deriving DecidableEq

/-- Well-formed table: every row carries exactly the table's columns. -/
def Table.Wf (t : Table) : Prop := ∀ r ∈ t.rows, keys r = t.cols

instance (t : Table) : Decidable t.Wf := by
  unfold Table.Wf; infer_instance

/-! ### Duplicate handling

`df.drop_duplicates()` (line 141) and `df.duplicated()` (line 275) are
pandas primitives: full-row equality, first occurrence kept / marked
non-duplicate.  `dedupFirst` models `drop_duplicates`, `dupAux`/`dupCount`
model `duplicated().sum()`. -/

/-- Model of `df.drop_duplicates()`: keep the first occurrence of each
row, deleting every later fully-equal copy (each kept element filters its
copies out of the deduplicated tail). -/
def dedupFirst {α : Type _} [DecidableEq α] : List α → List α
  | [] => []
  | x :: xs => x :: (dedupFirst xs).filter (fun y => y ≠ x)

/-- Spec-side reading of the dedup step, following §4.1 step 1 word for
word: walk the rows in order, keeping a row exactly when it has not been
seen earlier. -/
def keepFirstsAux {α : Type _} [DecidableEq α] (seen : List α) : List α → List α
  | [] => []
  | y :: ys => if y ∈ seen then keepFirstsAux seen ys else y :: keepFirstsAux (y :: seen) ys

/-- Spec-side dedup: keep each row's first occurrence, in input order. -/
def keepFirsts {α : Type _} [DecidableEq α] (l : List α) : List α := keepFirstsAux [] l

/-- Model of `df.duplicated().sum()` starting from a set of already-seen
rows: count the rows equal to an earlier row. -/
def dupAux {α : Type _} [DecidableEq α] (seen : List α) : List α → Nat
  | [] => 0
  | y :: ys => if y ∈ seen then 1 + dupAux seen ys else dupAux (y :: seen) ys

/-- Model of `df.duplicated().sum()`: number of rows having an earlier
fully-equal row. -/
def dupCount {α : Type _} [DecidableEq α] (l : List α) : Nat := dupAux [] l

/-! ### Transform (`transform`, lines 123-172)

Each numbered cleaning step is a named stage; `transform` chains them in
source order.  The element-wise date parser `pD` (for `pd.to_datetime`)
and numeric parser `pN` (for `pd.to_numeric`) are model parameters for
the external pandas parsers; `pD v = none` / `pN v = none` means pandas
cannot parse `v`. -/

/-- Line 141, `df_clean.drop_duplicates()`. -/
def dropDuplicates (t : Table) : Table := ⟨t.cols, dedupFirst t.rows⟩

/-- Row predicate of line 145: both required fields are non-null. -/
def requiredNonNull (r : Row) : Bool :=
  !(isna (getVal r "transaction_id")) && !(isna (getVal r "date"))

/-- Line 145, `df_clean.dropna(subset=['transaction_id', 'date'])`:
drops rows with a null in either required column; pandas raises
`KeyError` when a subset column is missing from the table. -/
def dropnaRequired (t : Table) : Except String Table :=
  if "transaction_id" ∈ t.cols ∧ "date" ∈ t.cols then
    Except.ok ⟨t.cols, t.rows.filter requiredNonNull⟩
  else Except.error "KeyError: subset columns not found"

/-- Element-wise pass of `pd.to_datetime` over the `date` column of a row
list: replace each date cell by its parse, failing the whole column as
soon as one cell is unparseable. -/
def parseDates (pD : Value → Option Value) : List Row → Except String (List Row)
  | [] => Except.ok []
  | r :: rs =>
    match pD (getVal r "date") with
    | none => Except.error "unable to parse date"
    | some v =>
      match parseDates pD rs with
      | Except.error e => Except.error e
      | Except.ok rs2 => Except.ok (setVal r "date" v :: rs2)

/-- Lines 148-149: `df_clean['date'] = pd.to_datetime(df_clean['date'])`,
guarded by `'date' in df_clean.columns`. -/
def parseDateCol (pD : Value → Option Value) (t : Table) : Except String Table :=
  if "date" ∈ t.cols then
    match parseDates pD t.rows with
    | Except.error e => Except.error e
    | Except.ok rs => Except.ok ⟨t.cols, rs⟩
  else Except.ok t

/-- Table-level column assignment `df[c] = f(row)`: overwrite an existing
column in place, or append a new column at the right edge. -/
def setCol (t : Table) (c : String) (f : Row → Value) : Table :=
  ⟨if c ∈ t.cols then t.cols else t.cols ++ [c],
   t.rows.map (fun r => setVal r c (f r))⟩

/-- Lines 152-153: derived field
`df_clean['total_amount'] = df_clean['quantity'] * df_clean['price']`,
guarded by both operand columns existing; computed on the raw,
pre-coercion values. -/
def addTotal (t : Table) : Table :=
  if "quantity" ∈ t.cols ∧ "price" ∈ t.cols then
    setCol t "total_amount" (fun r => mulVal (getVal r "quantity") (getVal r "price"))
  else t

/-- One iteration of the lines 156-159 loop:
`df[col] = pd.to_numeric(df[col], errors='coerce')` when `col` exists. -/
def coerceCol (pN : Value → Option Int) (c : String) (t : Table) : Table :=
  if c ∈ t.cols then
    ⟨t.cols, t.rows.map (fun r => setVal r c (toNumOrNull pN (getVal r c)))⟩
  else t

/-- Lines 156-159: the coercion loop over `['quantity', 'price']`. -/
def coerceNumeric (pN : Value → Option Int) (t : Table) : Table :=
  coerceCol pN "price" (coerceCol pN "quantity" t)

/-- Lines 162-165 (one column): `df_clean = df_clean[df_clean[c] > 0]`
when column `c` exists. -/
def filterPositive (c : String) (t : Table) : Table :=
  if c ∈ t.cols then ⟨t.cols, t.rows.filter (fun r => gt0 (getVal r c))⟩ else t

/-- `transform` (lines 123-172): duplicate removal, required-field
null-drop, date parsing, derived total, numeric coercion, positivity
filters, in source order.  A pandas exception (missing subset column,
unparseable date) propagates, modelled as `Except.error`. -/
def transform (pD : Value → Option Value) (pN : Value → Option Int)
    (t : Table) : Except String Table :=
  match dropnaRequired (dropDuplicates t) with
  | Except.error e => Except.error e
  | Except.ok t2 =>
    match parseDateCol pD t2 with
    | Except.error e => Except.error e
    | Except.ok t3 =>
      Except.ok (filterPositive "price" (filterPositive "quantity"
        (coerceNumeric pN (addTotal t3))))

/-! ### Validator (`validate_data`, lines 262-280) -/

/-- The validation report (lines 272-278).  The `data_types` entry of the
source dictionary is pandas dtype metadata with no content beyond the
stored values and is not modelled. -/
structure ValidationReport where
  total_records : Nat
  missing_values : List (String × Nat)
  duplicate_records : Nat
  columns : List String
deriving DecidableEq

/-- `validate_data` (lines 262-280): row count, per-column null counts
(`df.isnull().sum()`), duplicate-row count (`df.duplicated().sum()`),
column list. -/
def validate_data (t : Table) : ValidationReport :=
  { total_records := t.rows.length
  , missing_values :=
      t.cols.map (fun c => (c, (t.rows.filter (fun r => isna (getVal r c))).length))
  , duplicate_records := dupCount t.rows
  , columns := t.cols }

/-! ### Batch loader (`load`, lines 174-212)

`to_sql` is external; a write is recorded as a `Chunk` and a failure
oracle `fails : Nat → Bool` says whether the `k`-th write (0-based)
raises.  `load` returns the committed writes, the number of attempted
writes, and the returned boolean. -/

/-- The `if_exists` write policy of `to_sql`. -/
inductive Mode where
  | append
  | replace
  | failIfExists
deriving DecidableEq

/-- One `to_sql` call: destination table, the rows of the batch, and the
write mode used. -/
structure Chunk where
  table : String
  data : List Row
  mode : Mode
deriving DecidableEq

/-- The batch slices of the line 196 loop
`for i in range(0, len(df), batch_size): batch = df.iloc[i:i+batch_size]`:
the loop body runs once per start index `i = k * b` with
`k < ceil(len(df) / b)`, and `df.iloc[i:i+b]` is `(rows.drop i).take b`. -/
def chunkList (b : Nat) (rows : List Row) : List (List Row) :=
  (List.range ((rows.length + b - 1) / b)).map (fun k => (rows.drop (k * b)).take b)

/-- Line 201 mode selection: the first batch (`i == 0`) uses the given
`if_exists`, every later batch uses append. -/
def withModes (name : String) (m : Mode) : List (List Row) → List Chunk
  | [] => []
  | c :: cs => ⟨name, c, m⟩ :: cs.map (fun d => ⟨name, d, Mode.append⟩)

/-- Execute the planned writes in order starting at write index `k`:
stop at the first write whose `to_sql` raises.  Returns (committed
chunks, number of `to_sql` calls made, success flag). -/
def runWrites (fails : Nat → Bool) (k : Nat) : List Chunk → List Chunk × Nat × Bool
  | [] => ([], 0, true)
  | c :: cs =>
    if fails k then ([], 1, false)
    else
      let r := runWrites fails (k + 1) cs
      (c :: r.1, r.2.1 + 1, r.2.2)

/-- `load` (lines 174-212).  A missing engine raises `RuntimeError`
(line 190) and a zero batch size raises `ZeroDivisionError` at line 194,
both caught by the `except` clause which returns `False` with no write
attempted; otherwise the chunked writes run in order until the first
failure, and the `except` clause turns a failed write into `False`
while keeping earlier writes committed. -/
def load (engine : Option Unit) (fails : Nat → Bool) (b : Nat)
    (rows : List Row) (name : String) (m : Mode) : List Chunk × Nat × Bool :=
  match engine with
  | none => ([], 0, false)
  | some _ =>
    if b = 0 then ([], 0, false)
    else runWrites fails 0 (withModes name m (chunkList b rows))

/-! ### Extract and orchestrator (`extract` lines 93-121, `run` lines
214-260) -/

/-- Python's `str.endswith(suffix)`: the suffix test on the underlying
character sequences. -/
def strEndsWith (s suf : String) : Bool := suf.data.isSuffixOf s.data

/-- `extract` (lines 93-121): dispatch on the filename suffix; `.csv` and
`.xlsx` go to the external readers (model parameters), any other suffix
raises `ValueError("Unsupported file format: ...")`. -/
def extract (readCsv readXlsx : String → Except String Table)
    (p : String) : Except String Table :=
  if strEndsWith p ".csv" then readCsv p
  else if strEndsWith p ".xlsx" then readXlsx p
  else Except.error ("Unsupported file format: " ++ p)

/-- Where a pipeline run stopped. -/
inductive RunStop where
  | connectFailed
  | extractFailed
  | transformFailed
  | loaded (r : List Chunk × Nat × Bool)
deriving DecidableEq

/-- Outcome of `run`: the returned boolean plus the stage at which the
run ended (the `try` block re-raises no exception past `run`). -/
structure RunOutcome where
  success : Bool
  stop : RunStop
deriving DecidableEq

/-- `run` (lines 214-260): connect, extract, transform, then load with
the default `if_exists='append'`; any stage exception is caught and
reported as `False`, and a failed stage skips all later stages. -/
def run (connectOk : Bool) (readCsv readXlsx : String → Except String Table)
    (pD : Value → Option Value) (pN : Value → Option Int)
    (fails : Nat → Bool) (b : Nat) (src tgt : String) : RunOutcome :=
  if connectOk then
    match extract readCsv readXlsx src with
    | Except.error _ => ⟨false, RunStop.extractFailed⟩
    | Except.ok raw =>
      match transform pD pN raw with
      | Except.error _ => ⟨false, RunStop.transformFailed⟩
      | Except.ok clean =>
        let r := load (some ()) fails b clean.rows tgt Mode.append
        ⟨r.2.2, RunStop.loaded r⟩
  else ⟨false, RunStop.connectFailed⟩

/-! ### Concrete instantiations of the external parsers and sample tables,
used to evaluate the model on explicit inputs. -/

/-- A concrete stand-in for `pd.to_datetime` on one cell: an
already-parsed datetime parses to itself, the two sample ISO date strings
parse to their tick values, everything else is unparseable. -/
def pDate0 : Value → Option Value
  | Value.date d => some (Value.date d)
  | Value.str s =>
    if s = "2024-01-01" then some (Value.date 20240101)
    else if s = "2024-01-02" then some (Value.date 20240102)
    else none
  | _ => none

/-- A concrete stand-in for `pd.to_numeric` on one cell: numeric values
coerce to themselves, everything else is unparseable. -/
def pNum0 : Value → Option Int
  | Value.num a => some a
  | _ => none

/-- The §8 scenario table: a duplicated valid row, a null-date row and a
negative-quantity row. -/
def sampleTable : Table :=
  ⟨["transaction_id", "date", "quantity", "price"],
   [ [("transaction_id", Value.num 1), ("date", Value.str "2024-01-01"),
      ("quantity", Value.num 2), ("price", Value.num 5)]
   , [("transaction_id", Value.num 1), ("date", Value.str "2024-01-01"),
      ("quantity", Value.num 2), ("price", Value.num 5)]
   , [("transaction_id", Value.num 2), ("date", Value.null),
      ("quantity", Value.num 3), ("price", Value.num 4)]
   , [("transaction_id", Value.num 3), ("date", Value.str "2024-01-02"),
      ("quantity", Value.num (-1)), ("price", Value.num 4)] ]⟩

/-- The transform of `sampleTable`: only the first row survives, with the
date parsed and the derived total appended. -/
def sampleOut : Table :=
  ⟨["transaction_id", "date", "quantity", "price", "total_amount"],
   [ [("transaction_id", Value.num 1), ("date", Value.date 20240101),
      ("quantity", Value.num 2), ("price", Value.num 5),
      ("total_amount", Value.num 10)] ]⟩

/-- A table whose single row survives the null-drop step but carries an
unparseable date string. -/
def badDateTable : Table :=
  ⟨["transaction_id", "date", "quantity", "price"],
   [ [("transaction_id", Value.num 7), ("date", Value.str "not-a-date"),
      ("quantity", Value.num 1), ("price", Value.num 1)] ]⟩

/-- Two distinct rows, clean in every listed respect (no duplicates, no
missing required fields, parsed dates, positive numerics), that differ
only in a stale pre-existing `total_amount` value. -/
def staleTotalTable : Table :=
  ⟨["transaction_id", "date", "quantity", "price", "total_amount"],
   [ [("transaction_id", Value.num 1), ("date", Value.date 20240101),
      ("quantity", Value.num 2), ("price", Value.num 3),
      ("total_amount", Value.num 7)]
   , [("transaction_id", Value.num 1), ("date", Value.date 20240101),
      ("quantity", Value.num 2), ("price", Value.num 3),
      ("total_amount", Value.num 9)] ]⟩

/-- What `transform` makes of `staleTotalTable`: recomputing the derived
column collapses the two rows into fully-equal duplicates. -/
def staleTotalOut : Table :=
  ⟨["transaction_id", "date", "quantity", "price", "total_amount"],
   [ [("transaction_id", Value.num 1), ("date", Value.date 20240101),
      ("quantity", Value.num 2), ("price", Value.num 3),
      ("total_amount", Value.num 6)]
   , [("transaction_id", Value.num 1), ("date", Value.date 20240101),
      ("quantity", Value.num 2), ("price", Value.num 3),
      ("total_amount", Value.num 6)] ]⟩

/-- A one-row table that is clean in every respect, including having no
pre-existing `total_amount` column. -/
def cleanTable : Table :=
  ⟨["transaction_id", "date", "quantity", "price"],
   [ [("transaction_id", Value.num 1), ("date", Value.date 20240101),
      ("quantity", Value.num 2), ("price", Value.num 3)] ]⟩

/-! ### Helper lemmas: row access -/

theorem getVal_setVal_self (r : Row) (c : String) (v : Value) :
    getVal (setVal r c v) c = v := by
  induction r with
  | nil => simp [setVal, getVal]
  | cons kv rest ih =>
    obtain ⟨k, w⟩ := kv
    by_cases hk : k = c
    · simp [setVal, getVal, hk]
    · simp [setVal, getVal, hk, ih]

theorem keys_nil : keys ([] : Row) = [] := rfl

theorem keys_cons (k : String) (w : Value) (rest : Row) :
    keys ((k, w) :: rest) = k :: keys rest := rfl

theorem getVal_setVal_ne (r : Row) {c c2 : String} (h : c2 ≠ c) (v : Value) :
    getVal (setVal r c v) c2 = getVal r c2 := by
  induction r with
  | nil =>
    simp only [setVal, getVal]
    rw [if_neg (fun hh => h hh.symm)]
  | cons kv rest ih =>
    obtain ⟨k, w⟩ := kv
    by_cases hk : k = c
    · subst hk
      simp only [setVal, if_pos rfl, getVal]
      rw [if_neg (fun hh => h hh.symm), if_neg (fun hh => h hh.symm)]
    · simp only [setVal, if_neg hk, getVal]
      by_cases hk2 : k = c2
      · rw [if_pos hk2, if_pos hk2]
      · rw [if_neg hk2, if_neg hk2, ih]

theorem setVal_getVal_of_ne_null (r : Row) (c : String)
    (h : getVal r c ≠ Value.null) : setVal r c (getVal r c) = r := by
  induction r with
  | nil => exact absurd rfl h
  | cons kv rest ih =>
    obtain ⟨k, w⟩ := kv
    by_cases hk : k = c
    · simp only [getVal, if_pos hk, setVal]
    · simp only [getVal, if_neg hk] at h
      simp only [getVal, if_neg hk, setVal, ih h]

theorem getVal_of_not_mem_keys {r : Row} {c : String} (h : c ∉ keys r) :
    getVal r c = Value.null := by
  induction r with
  | nil => rfl
  | cons kv rest ih =>
    obtain ⟨k, w⟩ := kv
    rw [keys_cons, List.mem_cons, not_or] at h
    simp only [getVal]
    rw [if_neg (fun hh => h.1 hh.symm), ih h.2]

theorem setVal_of_not_mem_keys {r : Row} {c : String} (h : c ∉ keys r) (v : Value) :
    setVal r c v = r ++ [(c, v)] := by
  induction r with
  | nil => rfl
  | cons kv rest ih =>
    obtain ⟨k, w⟩ := kv
    rw [keys_cons, List.mem_cons, not_or] at h
    simp only [setVal]
    rw [if_neg (fun hh => h.1 hh.symm), ih h.2, List.cons_append]

theorem keys_setVal_of_mem {r : Row} {c : String} (h : c ∈ keys r) (v : Value) :
    keys (setVal r c v) = keys r := by
  induction r with
  | nil => simp [keys] at h
  | cons kv rest ih =>
    obtain ⟨k, w⟩ := kv
    by_cases hk : k = c
    · simp only [setVal, if_pos hk, keys_cons]
    · rw [keys_cons, List.mem_cons] at h
      rcases h with h | h
      · exact absurd h.symm hk
      · simp only [setVal, if_neg hk, keys_cons, ih h]

theorem keys_setVal_of_not_mem {r : Row} {c : String} (h : c ∉ keys r) (v : Value) :
    keys (setVal r c v) = keys r ++ [c] := by
  rw [setVal_of_not_mem_keys h, keys, List.map_append]
  rfl

/-! ### Helper lemmas: deduplication -/

theorem dedupFirst_sublist {α : Type _} [DecidableEq α] (l : List α) :
    (dedupFirst l).Sublist l := by
  induction l with
  | nil => simp [dedupFirst]
  | cons x xs ih =>
    exact List.Sublist.cons₂ x (((dedupFirst xs).filter_sublist).trans ih)

theorem mem_of_mem_dedupFirst {α : Type _} [DecidableEq α] {l : List α} {a : α}
    (h : a ∈ dedupFirst l) : a ∈ l :=
  (dedupFirst_sublist l).subset h

theorem mem_dedupFirst_of_mem {α : Type _} [DecidableEq α] {l : List α} {a : α}
    (h : a ∈ l) : a ∈ dedupFirst l := by
  induction l with
  | nil => simp at h
  | cons x xs ih =>
    by_cases hx : a = x
    · simp [dedupFirst, hx]
    · rcases List.mem_cons.mp h with h1 | h1
      · exact absurd h1 hx
      · simp [dedupFirst, List.mem_filter, ih h1, hx]

theorem dedupFirst_nodup {α : Type _} [DecidableEq α] (l : List α) :
    (dedupFirst l).Nodup := by
  induction l with
  | nil => simp [dedupFirst]
  | cons x xs ih =>
    refine List.nodup_cons.mpr ⟨?_, ih.filter _⟩
    intro hmem
    simpa using (List.mem_filter.mp hmem).2

theorem keepFirstsAux_eq_filter_dedupFirst {α : Type _} [DecidableEq α]
    (l : List α) : ∀ seen : List α,
    keepFirstsAux seen l = (dedupFirst l).filter (fun y => y ∉ seen) := by
  induction l with
  | nil => intro seen; simp [keepFirstsAux, dedupFirst]
  | cons x xs ih =>
    intro seen
    by_cases hx : x ∈ seen
    · rw [keepFirstsAux, if_pos hx, ih seen]
      rw [dedupFirst, List.filter_cons_of_neg (by simpa using hx), List.filter_filter]
      refine List.filter_congr ?_
      intro y hy
      by_cases hys : y ∈ seen
      · simp [hys]
      · have hyx : y ≠ x := fun hyx => hys (hyx ▸ hx)
        simp [hys, hyx]
    · rw [keepFirstsAux, if_neg hx, ih (x :: seen)]
      rw [dedupFirst, List.filter_cons_of_pos (by simpa using hx), List.filter_filter]
      congr 1
      refine List.filter_congr ?_
      intro y hy
      by_cases hys : y ∈ seen <;> by_cases hyx : y = x <;> simp [hys, hyx]

theorem dedupFirst_eq_keepFirsts {α : Type _} [DecidableEq α] (l : List α) :
    dedupFirst l = keepFirsts l := by
  rw [keepFirsts, keepFirstsAux_eq_filter_dedupFirst l []]
  exact (List.filter_eq_self.mpr (by simp)).symm

theorem dedupFirst_eq_self_of_nodup {α : Type _} [DecidableEq α] {l : List α}
    (h : l.Nodup) : dedupFirst l = l := by
  induction l with
  | nil => rfl
  | cons x xs ih =>
    rcases List.nodup_cons.mp h with ⟨hx, hxs⟩
    rw [dedupFirst, ih hxs]
    rw [List.filter_eq_self.mpr]
    intro y hy
    simp only [ne_eq, decide_eq_true_eq]
    intro hyx
    exact hx (hyx ▸ hy)

theorem length_keepFirstsAux_add_dupAux {α : Type _} [DecidableEq α]
    (l : List α) : ∀ seen : List α,
    (keepFirstsAux seen l).length + dupAux seen l = l.length := by
  induction l with
  | nil => intro seen; simp [keepFirstsAux, dupAux]
  | cons x xs ih =>
    intro seen
    by_cases hx : x ∈ seen
    · simp only [keepFirstsAux, dupAux, if_pos hx]
      have h := ih seen
      rw [List.length_cons]
      omega
    · simp only [keepFirstsAux, dupAux, if_neg hx]
      have h := ih (x :: seen)
      rw [List.length_cons, List.length_cons]
      omega

theorem dupCount_eq_sub {α : Type _} [DecidableEq α] (l : List α) :
    dupCount l = l.length - (dedupFirst l).length := by
  have h := length_keepFirstsAux_add_dupAux l []
  rw [← keepFirsts, ← dedupFirst_eq_keepFirsts] at h
  rw [dupCount]
  omega

/-! ### Helper lemmas: date parsing -/

theorem parseDates_mem {pD : Value → Option Value} {l l2 : List Row}
    (h : parseDates pD l = Except.ok l2) :
    ∀ r2 ∈ l2, ∃ r ∈ l, ∃ v, pD (getVal r "date") = some v ∧ r2 = setVal r "date" v := by
  induction l generalizing l2 with
  | nil =>
    simp only [parseDates] at h
    cases h
    simp
  | cons r rs ih =>
    simp only [parseDates] at h
    cases hp : pD (getVal r "date") with
    | none => rw [hp] at h; cases h
    | some v =>
      rw [hp] at h
      cases hrec : parseDates pD rs with
      | error e => rw [hrec] at h; cases h
      | ok rs2 =>
        rw [hrec] at h
        cases h
        intro r2 hr2
        rcases List.mem_cons.mp hr2 with h2 | h2
        · exact ⟨r, List.mem_cons_self r rs, v, hp, h2⟩
        · rcases ih hrec r2 h2 with ⟨r0, hr0, v0, hv0, he⟩
          exact ⟨r0, List.mem_cons_of_mem r hr0, v0, hv0, he⟩

theorem parseDates_error_of_mem {pD : Value → Option Value} {l : List Row} {r : Row}
    (hr : r ∈ l) (hbad : pD (getVal r "date") = none) :
    ∃ e, parseDates pD l = Except.error e := by
  induction l with
  | nil => simp at hr
  | cons r0 rs ih =>
    rcases List.mem_cons.mp hr with h | h
    · subst h
      exact ⟨"unable to parse date", by simp [parseDates, hbad]⟩
    · simp only [parseDates]
      cases hp : pD (getVal r0 "date") with
      | none => exact ⟨"unable to parse date", rfl⟩
      | some v =>
        rcases ih h with ⟨e, he⟩
        exact ⟨e, by rw [he]⟩

theorem parseDates_id {pD : Value → Option Value} {l : List Row}
    (h : ∀ r ∈ l, pD (getVal r "date") = some (getVal r "date") ∧
         getVal r "date" ≠ Value.null) :
    parseDates pD l = Except.ok l := by
  induction l with
  | nil => rfl
  | cons r rs ih =>
    rcases h r (List.mem_cons_self r rs) with ⟨h1, h2⟩
    simp only [parseDates, h1]
    rw [ih (fun r2 hr2 => h r2 (List.mem_cons_of_mem r hr2))]
    rw [setVal_getVal_of_ne_null r "date" h2]

/-! ### Helper lemmas: chunking and writes -/

theorem chunkList_length (b : Nat) (rows : List Row) :
    (chunkList b rows).length = (rows.length + b - 1) / b := by
  rw [chunkList, List.length_map, List.length_range]

theorem chunkList_nil (b : Nat) : chunkList b ([] : List Row) = [] := by
  rcases Nat.eq_zero_or_pos b with hb | hb
  · simp [chunkList, hb]
  · rw [chunkList]
    simp only [List.length_nil, Nat.zero_add]
    rw [Nat.div_eq_of_lt (by omega)]
    rfl

theorem chunkList_cons (b : Nat) (hb : 0 < b) (rows : List Row) (h : rows ≠ []) :
    chunkList b rows = rows.take b :: chunkList b (rows.drop b) := by
  have hlen : 0 < rows.length := List.length_pos.mpr h
  have hceil : (rows.length + b - 1) / b = (rows.length - 1) / b + 1 := by
    have h1 : rows.length + b - 1 = (rows.length - 1) + b := by omega
    rw [h1, Nat.add_div_right _ hb]
  have hceil2 : ((rows.drop b).length + b - 1) / b = (rows.length - 1) / b := by
    rw [List.length_drop]
    rcases Nat.lt_or_ge rows.length b with hlt | hge
    · have h1 : rows.length - b = 0 := by omega
      rw [h1, Nat.zero_add, Nat.div_eq_of_lt (by omega), Nat.div_eq_of_lt (by omega)]
    · congr 1
      omega
  rw [chunkList, chunkList, hceil, hceil2, List.range_succ_eq_map, List.map_cons,
    List.map_map]
  congr 1
  · rw [Nat.zero_mul, List.drop_zero]
  · refine List.map_congr_left ?_
    intro k hk
    simp only [Function.comp_apply, Nat.succ_eq_add_one]
    rw [List.drop_drop]
    congr 2
    ring

theorem chunkList_flatten (b : Nat) (hb : 0 < b) (rows : List Row) :
    (chunkList b rows).flatten = rows := by
  by_cases h : rows = []
  · subst h
    rw [chunkList_nil]
    rfl
  · rw [chunkList_cons b hb rows h, List.flatten_cons,
      chunkList_flatten b hb (rows.drop b), List.take_append_drop]
termination_by rows.length
decreasing_by
  have : 0 < rows.length := List.length_pos.mpr h
  rw [List.length_drop]
  omega

theorem chunkList_mem_length_le (b : Nat) (rows : List Row) :
    ∀ c ∈ chunkList b rows, c.length ≤ b := by
  intro c hc
  rw [chunkList] at hc
  rcases List.mem_map.mp hc with ⟨k, _, hk⟩
  subst hk
  rw [List.length_take]
  omega

theorem withModes_map_data (name : String) (m : Mode) (cs : List (List Row)) :
    (withModes name m cs).map Chunk.data = cs := by
  cases cs with
  | nil => rfl
  | cons c rest =>
    simp only [withModes, List.map_cons, List.map_map]
    have h : (Chunk.data ∘ fun d => ({ table := name, data := d, mode := Mode.append } : Chunk)) = id :=
      funext (fun d => rfl)
    rw [h, List.map_id]

theorem withModes_length (name : String) (m : Mode) (cs : List (List Row)) :
    (withModes name m cs).length = cs.length := by
  have h := congrArg List.length (withModes_map_data name m cs)
  rwa [List.length_map] at h

theorem withModes_tail_mode (name : String) (m : Mode) (cs : List (List Row)) :
    ∀ ch ∈ (withModes name m cs).tail, ch.mode = Mode.append := by
  cases cs with
  | nil => intro ch hch; simp [withModes] at hch
  | cons c rest =>
    intro ch hch
    simp only [withModes, List.tail_cons] at hch
    rcases List.mem_map.mp hch with ⟨d, _, hd⟩
    rw [← hd]

theorem withModes_head_mode (name : String) (m : Mode) (cs : List (List Row)) :
    ∀ ch, (withModes name m cs).head? = some ch → ch.mode = m := by
  cases cs with
  | nil => intro ch hch; simp [withModes] at hch
  | cons c rest =>
    intro ch hch
    simp only [withModes, List.head?_cons, Option.some_inj] at hch
    rw [← hch]

theorem withModes_mem_data (name : String) (m : Mode) (cs : List (List Row)) :
    ∀ ch ∈ withModes name m cs, ch.data ∈ cs := by
  intro ch hch
  have h : ch.data ∈ (withModes name m cs).map Chunk.data :=
    List.mem_map.mpr ⟨ch, hch, rfl⟩
  rwa [withModes_map_data] at h

theorem runWrites_all_ok (fails : Nat → Bool) (ws : List Chunk) :
    ∀ k, (∀ j, j < ws.length → fails (k + j) = false) →
    runWrites fails k ws = (ws, ws.length, true) := by
  induction ws with
  | nil => intro k _; rfl
  | cons c cs ih =>
    intro k h
    have h0 : fails k = false := by
      have := h 0 (by simp)
      rwa [Nat.add_zero] at this
    rw [runWrites, if_neg (by rw [h0]; exact Bool.false_ne_true)]
    have hrec := ih (k + 1) (fun j hj => by
      have h2 := h (j + 1) (by simpa using Nat.succ_lt_succ hj)
      have he : k + (j + 1) = k + 1 + j := by omega
      rwa [he] at h2)
    rw [hrec]
    rfl

theorem runWrites_fail_at (fails : Nat → Bool) (ws : List Chunk) :
    ∀ k j, j < ws.length → (∀ i, i < j → fails (k + i) = false) →
    fails (k + j) = true →
    runWrites fails k ws = (ws.take j, j + 1, false) := by
  induction ws with
  | nil => intro k j hj _ _; simp at hj
  | cons c cs ih =>
    intro k j hj hok hbad
    cases j with
    | zero =>
      rw [Nat.add_zero] at hbad
      rw [runWrites, if_pos hbad]
      rfl
    | succ i =>
      have h0 : fails k = false := by
        have := hok 0 (Nat.succ_pos i)
        rwa [Nat.add_zero] at this
      rw [runWrites, if_neg (by rw [h0]; exact Bool.false_ne_true)]
      have hrec := ih (k + 1) i (by simpa using Nat.lt_of_succ_lt_succ hj)
        (fun i2 hi2 => by
          have h2 := hok (i2 + 1) (Nat.succ_lt_succ hi2)
          have he : k + (i2 + 1) = k + 1 + i2 := by omega
          rwa [he] at h2)
        (by
          have he : k + (i + 1) = k + 1 + i := by omega
          rwa [he] at hbad)
      rw [hrec]
      rfl

/-! ### Helper lemmas: transform stages -/

theorem gt0_iff (v : Value) : gt0 v = true ↔ ∃ a : Int, v = Value.num a ∧ 0 < a := by
  cases v <;> simp [gt0]

theorem dropnaRequired_ok {t : Table}
    (hc : "transaction_id" ∈ t.cols ∧ "date" ∈ t.cols) :
    dropnaRequired (dropDuplicates t) =
      Except.ok ⟨t.cols, (dedupFirst t.rows).filter requiredNonNull⟩ := by
  rw [dropDuplicates, dropnaRequired, if_pos hc]

theorem transform_eq_of_dropna {pD : Value → Option Value} {pN : Value → Option Int}
    {t t2 : Table} (h : dropnaRequired (dropDuplicates t) = Except.ok t2) :
    transform pD pN t =
      match parseDateCol pD t2 with
      | Except.error e => Except.error e
      | Except.ok t3 =>
        Except.ok (filterPositive "price" (filterPositive "quantity"
          (coerceNumeric pN (addTotal t3)))) := by
  rw [transform, h]

theorem parseDateCol_ok {pD : Value → Option Value} {t : Table} {rs : List Row}
    (hd : "date" ∈ t.cols) (hps : parseDates pD t.rows = Except.ok rs) :
    parseDateCol pD t = Except.ok ⟨t.cols, rs⟩ := by
  rw [parseDateCol, if_pos hd, hps]

theorem parseDateCol_error {pD : Value → Option Value} {t : Table} {e : String}
    (hd : "date" ∈ t.cols) (hps : parseDates pD t.rows = Except.error e) :
    parseDateCol pD t = Except.error e := by
  rw [parseDateCol, if_pos hd, hps]

theorem transform_ok_elim {pD : Value → Option Value} {pN : Value → Option Int}
    {t out : Table} (htr : transform pD pN t = Except.ok out) :
    ("transaction_id" ∈ t.cols ∧ "date" ∈ t.cols) ∧
    ∃ rs, parseDates pD ((dedupFirst t.rows).filter requiredNonNull) = Except.ok rs ∧
      out = filterPositive "price" (filterPositive "quantity"
        (coerceNumeric pN (addTotal ⟨t.cols, rs⟩))) := by
  by_cases hc : "transaction_id" ∈ t.cols ∧ "date" ∈ t.cols
  · refine ⟨hc, ?_⟩
    rw [transform_eq_of_dropna (dropnaRequired_ok hc)] at htr
    cases hps : parseDates pD ((dedupFirst t.rows).filter requiredNonNull) with
    | error e =>
      rw [@parseDateCol_error pD
        ⟨t.cols, (dedupFirst t.rows).filter requiredNonNull⟩ e hc.2 hps] at htr
      cases htr
    | ok rs =>
      rw [@parseDateCol_ok pD
        ⟨t.cols, (dedupFirst t.rows).filter requiredNonNull⟩ rs hc.2 hps] at htr
      exact ⟨rs, rfl, (Except.ok.inj htr).symm⟩
  · rw [transform, dropDuplicates, dropnaRequired, if_neg hc] at htr
    cases htr

theorem transform_error_of_parseDates {pD : Value → Option Value}
    {pN : Value → Option Int} {t : Table} {e : String}
    (hc : "transaction_id" ∈ t.cols ∧ "date" ∈ t.cols)
    (hps : parseDates pD ((dedupFirst t.rows).filter requiredNonNull) =
      Except.error e) :
    transform pD pN t = Except.error e := by
  rw [transform_eq_of_dropna (dropnaRequired_ok hc),
    @parseDateCol_error pD
      ⟨t.cols, (dedupFirst t.rows).filter requiredNonNull⟩ e hc.2 hps]

theorem coerceCol_cols (pN : Value → Option Int) (c : String) (t : Table) :
    (coerceCol pN c t).cols = t.cols := by
  rw [coerceCol]
  split <;> rfl

theorem filterPositive_cols (c : String) (t : Table) :
    (filterPositive c t).cols = t.cols := by
  rw [filterPositive]
  split <;> rfl

theorem mem_addTotal_cols {c2 : String} {t : Table} (h : c2 ∈ t.cols) :
    c2 ∈ (addTotal t).cols := by
  rw [addTotal]
  split
  · rw [setCol]
    split
    · exact h
    · exact List.mem_append_left _ h
  · exact h

theorem coerceCol_rows {pN : Value → Option Int} {c : String} {t : Table}
    (hc : c ∈ t.cols) :
    (coerceCol pN c t).rows =
      t.rows.map (fun r => setVal r c (toNumOrNull pN (getVal r c))) := by
  rw [coerceCol, if_pos hc]

theorem filterPositive_rows {c : String} {t : Table} (hc : c ∈ t.cols) :
    (filterPositive c t).rows = t.rows.filter (fun r => gt0 (getVal r c)) := by
  rw [filterPositive, if_pos hc]

theorem addTotal_rows {t : Table}
    (hq : "quantity" ∈ t.cols) (hp : "price" ∈ t.cols) :
    (addTotal t).rows = t.rows.map (fun r =>
      setVal r "total_amount" (mulVal (getVal r "quantity") (getVal r "price"))) := by
  rw [addTotal, if_pos ⟨hq, hp⟩, setCol]

/-- The rows surviving transformation, traced back to the post-date-parse
stage: each output row is the coercion image of the total-amount image of
a stage-3 row, and passes both positivity filters. -/
theorem transform_out_rows {pN : Value → Option Int}
    {t out : Table} {rs : List Row}
    (hq : "quantity" ∈ t.cols) (hp : "price" ∈ t.cols)
    (hout : out = filterPositive "price" (filterPositive "quantity"
      (coerceNumeric pN (addTotal ⟨t.cols, rs⟩)))) :
    ∀ r2 ∈ out.rows, ∃ r3 ∈ rs,
      r2 = setVal (setVal (setVal r3 "total_amount"
              (mulVal (getVal r3 "quantity") (getVal r3 "price")))
            "quantity" (toNumOrNull pN (getVal (setVal r3 "total_amount"
              (mulVal (getVal r3 "quantity") (getVal r3 "price"))) "quantity")))
          "price" (toNumOrNull pN (getVal (setVal (setVal r3 "total_amount"
              (mulVal (getVal r3 "quantity") (getVal r3 "price")))
            "quantity" (toNumOrNull pN (getVal (setVal r3 "total_amount"
              (mulVal (getVal r3 "quantity") (getVal r3 "price"))) "quantity"))) "price"))
      ∧ gt0 (getVal r2 "quantity") = true ∧ gt0 (getVal r2 "price") = true := by
  intro r2 hr2
  set t3 : Table := ⟨t.cols, rs⟩ with ht3
  have hq3 : "quantity" ∈ t3.cols := hq
  have hp3 : "price" ∈ t3.cols := hp
  have hq4 : "quantity" ∈ (addTotal t3).cols := mem_addTotal_cols hq3
  have hp4 : "price" ∈ (addTotal t3).cols := mem_addTotal_cols hp3
  have hq5 : "quantity" ∈ (coerceNumeric pN (addTotal t3)).cols := by
    rw [coerceNumeric, coerceCol_cols, coerceCol_cols]; exact hq4
  have hp5 : "price" ∈ (coerceNumeric pN (addTotal t3)).cols := by
    rw [coerceNumeric, coerceCol_cols, coerceCol_cols]; exact hp4
  have hq6 : "quantity" ∈ (filterPositive "quantity"
      (coerceNumeric pN (addTotal t3))).cols := by
    rw [filterPositive_cols]; exact hq5
  have hp6 : "price" ∈ (filterPositive "quantity"
      (coerceNumeric pN (addTotal t3))).cols := by
    rw [filterPositive_cols]; exact hp5
  rw [hout, filterPositive_rows hp6] at hr2
  rcases List.mem_filter.mp hr2 with ⟨hr2a, hgp⟩
  rw [filterPositive_rows hq5] at hr2a
  rcases List.mem_filter.mp hr2a with ⟨hr2b, hgq⟩
  rw [coerceNumeric, coerceCol_rows (by rw [coerceCol_cols]; exact hp4)] at hr2b
  rcases List.mem_map.mp hr2b with ⟨r5, hr5, he5⟩
  rw [coerceCol_rows hq4] at hr5
  rcases List.mem_map.mp hr5 with ⟨r4, hr4, he4⟩
  rw [addTotal_rows hq3 hp3] at hr4
  rcases List.mem_map.mp hr4 with ⟨r3, hr3, he3⟩
  refine ⟨r3, hr3, ?_, hgq, hgp⟩
  rw [← he5, ← he4, ← he3]

/-! ### Helper lemmas: idempotence on clean tables -/

theorem tableExt {t1 t2 : Table} (h1 : t1.cols = t2.cols)
    (h2 : t1.rows = t2.rows) : t1 = t2 := by
  cases t1
  cases t2
  simp only at h1 h2
  rw [h1, h2]

theorem isDate_iff (v : Value) : isDate v = true ↔ ∃ d, v = Value.date d := by
  cases v <;> simp [isDate]

/-- Every cleanliness fact needed about one row of an already-clean
table. -/
def CleanRow (r : Row) : Prop :=
  getVal r "transaction_id" ≠ Value.null ∧
  isDate (getVal r "date") = true ∧
  gt0 (getVal r "quantity") = true ∧
  gt0 (getVal r "price") = true

instance (r : Row) : Decidable (CleanRow r) := by
  unfold CleanRow; infer_instance

theorem addTotal_cols_of_mem {t : Table}
    (hq : "quantity" ∈ t.cols) (hp : "price" ∈ t.cols)
    (hta : "total_amount" ∈ t.cols) : (addTotal t).cols = t.cols := by
  rw [addTotal, if_pos ⟨hq, hp⟩, setCol]
  simp only [if_pos hta]

theorem addTotal_cols_of_not_mem {t : Table}
    (hq : "quantity" ∈ t.cols) (hp : "price" ∈ t.cols)
    (hta : "total_amount" ∉ t.cols) :
    (addTotal t).cols = t.cols ++ ["total_amount"] := by
  rw [addTotal, if_pos ⟨hq, hp⟩, setCol]
  simp only [if_neg hta]

theorem addTotal_eq_self {t : Table}
    (hq : "quantity" ∈ t.cols) (hp : "price" ∈ t.cols)
    (hta : "total_amount" ∈ t.cols)
    (hcons : ∀ r ∈ t.rows,
      getVal r "total_amount" = mulVal (getVal r "quantity") (getVal r "price"))
    (hnn : ∀ r ∈ t.rows, getVal r "total_amount" ≠ Value.null) :
    addTotal t = t := by
  refine tableExt (addTotal_cols_of_mem hq hp hta) ?_
  rw [addTotal_rows hq hp]
  have h : ∀ r ∈ t.rows,
      setVal r "total_amount" (mulVal (getVal r "quantity") (getVal r "price")) =
      id r := by
    intro r hr
    rw [← hcons r hr]
    exact setVal_getVal_of_ne_null r "total_amount" (hnn r hr)
  rw [List.map_congr_left h, List.map_id]

/-- `transform` on a table that is already fully clean only recomputes the
derived `total_amount` column: every other stage is the identity. -/
theorem transform_clean {pD : Value → Option Value} {pN : Value → Option Int}
    {t : Table}
    (hD : ∀ d, pD (Value.date d) = some (Value.date d))
    (hN : ∀ a : Int, pN (Value.num a) = some a)
    (hcols : "transaction_id" ∈ t.cols ∧ "date" ∈ t.cols)
    (hq : "quantity" ∈ t.cols) (hp : "price" ∈ t.cols)
    (hnd : t.rows.Nodup)
    (hrow : ∀ r ∈ t.rows, CleanRow r) :
    transform pD pN t = Except.ok (addTotal t) := by
  have h1 : dedupFirst t.rows = t.rows := dedupFirst_eq_self_of_nodup hnd
  have h2 : t.rows.filter requiredNonNull = t.rows := by
    refine List.filter_eq_self.mpr ?_
    intro r hr
    rcases hrow r hr with ⟨ht, hd2, _, _⟩
    rcases (isDate_iff _).mp hd2 with ⟨d, hdd⟩
    simp [requiredNonNull, isna, ht, hdd]
  have h3 : parseDates pD t.rows = Except.ok t.rows := by
    refine parseDates_id ?_
    intro r hr
    rcases hrow r hr with ⟨_, hd2, _, _⟩
    rcases (isDate_iff _).mp hd2 with ⟨d, hdd⟩
    rw [hdd, hD d]
    exact ⟨rfl, fun hh => Value.noConfusion hh⟩
  have hok : dropnaRequired (dropDuplicates t) = Except.ok t := by
    rw [dropnaRequired_ok hcols, h1, h2]
  rw [transform_eq_of_dropna hok, parseDateCol_ok hcols.2 h3]
  show Except.ok (filterPositive "price" (filterPositive "quantity"
    (coerceNumeric pN (addTotal ⟨t.cols, t.rows⟩)))) = Except.ok (addTotal t)
  have heta : (⟨t.cols, t.rows⟩ : Table) = t := rfl
  rw [heta]
  -- per-row value facts on the total-amount image
  have hgq : ∀ r, getVal (setVal r "total_amount"
      (mulVal (getVal r "quantity") (getVal r "price"))) "quantity" =
      getVal r "quantity" :=
    fun r => getVal_setVal_ne r (by decide) _
  have hgp : ∀ r, getVal (setVal r "total_amount"
      (mulVal (getVal r "quantity") (getVal r "price"))) "price" =
      getVal r "price" :=
    fun r => getVal_setVal_ne r (by decide) _
  have hq4 : "quantity" ∈ (addTotal t).cols := mem_addTotal_cols hq
  have hp4 : "price" ∈ (addTotal t).cols := mem_addTotal_cols hp
  -- quantity coercion is the identity
  have hc1 : coerceCol pN "quantity" (addTotal t) = addTotal t := by
    refine tableExt (coerceCol_cols pN "quantity" (addTotal t)) ?_
    rw [coerceCol_rows hq4, addTotal_rows hq hp, List.map_map]
    refine List.map_congr_left ?_
    intro r hr
    rcases (gt0_iff _).mp (hrow r hr).2.2.1 with ⟨a, ha, _⟩
    simp only [Function.comp_apply]
    have hx : getVal (setVal r "total_amount"
        (mulVal (getVal r "quantity") (getVal r "price"))) "quantity" =
        Value.num a := by rw [hgq r, ha]
    have hnum : toNumOrNull pN (Value.num a) = Value.num a := by
      rw [toNumOrNull, hN a]
    rw [hx, hnum, ← hx]
    exact setVal_getVal_of_ne_null _ "quantity"
      (by rw [hx]; exact fun hh => Value.noConfusion hh)
  -- price coercion is the identity
  have hc2 : coerceCol pN "price" (addTotal t) = addTotal t := by
    refine tableExt (coerceCol_cols pN "price" (addTotal t)) ?_
    rw [coerceCol_rows hp4, addTotal_rows hq hp, List.map_map]
    refine List.map_congr_left ?_
    intro r hr
    rcases (gt0_iff _).mp (hrow r hr).2.2.2 with ⟨a, ha, _⟩
    simp only [Function.comp_apply]
    have hx : getVal (setVal r "total_amount"
        (mulVal (getVal r "quantity") (getVal r "price"))) "price" =
        Value.num a := by rw [hgp r, ha]
    have hnum : toNumOrNull pN (Value.num a) = Value.num a := by
      rw [toNumOrNull, hN a]
    rw [hx, hnum, ← hx]
    exact setVal_getVal_of_ne_null _ "price"
      (by rw [hx]; exact fun hh => Value.noConfusion hh)
  -- both positivity filters are the identity
  have hf1 : filterPositive "quantity" (addTotal t) = addTotal t := by
    refine tableExt (filterPositive_cols "quantity" (addTotal t)) ?_
    rw [filterPositive_rows hq4, addTotal_rows hq hp]
    refine List.filter_eq_self.mpr ?_
    intro r2 hr2
    rcases List.mem_map.mp hr2 with ⟨r, hr, he⟩
    rw [← he, hgq r]
    exact (hrow r hr).2.2.1
  have hf2 : filterPositive "price" (addTotal t) = addTotal t := by
    refine tableExt (filterPositive_cols "price" (addTotal t)) ?_
    rw [filterPositive_rows hp4, addTotal_rows hq hp]
    refine List.filter_eq_self.mpr ?_
    intro r2 hr2
    rcases List.mem_map.mp hr2 with ⟨r, hr, he⟩
    rw [← he, hgp r]
    exact (hrow r hr).2.2.2
  rw [coerceNumeric, hc1, hc2, hf1, hf2]

/-- Claim C8 (amended): on an already-clean well-formed table — no
duplicate rows, required fields present and non-null, dates already
parsed, quantity and price positive numerics, and any pre-existing
`total_amount` column already equal to `quantity * price` — `transform`
succeeds, and applying it a second time to its output yields that output
unchanged. -/
theorem transform_idempotent_on_clean
    {pD : Value → Option Value} {pN : Value → Option Int} {t : Table}
    (hD : ∀ d, pD (Value.date d) = some (Value.date d))
    (hN : ∀ a : Int, pN (Value.num a) = some a)
    (hwf : t.Wf)
    (hcols : "transaction_id" ∈ t.cols ∧ "date" ∈ t.cols)
    (hq : "quantity" ∈ t.cols) (hp : "price" ∈ t.cols)
    (hnd : t.rows.Nodup)
    (hrow : ∀ r ∈ t.rows, CleanRow r)
    (hta : "total_amount" ∈ t.cols → ∀ r ∈ t.rows,
      getVal r "total_amount" = mulVal (getVal r "quantity") (getVal r "price")) :
    ∃ out, transform pD pN t = Except.ok out ∧
      transform pD pN out = Except.ok out := by
  by_cases hta2 : "total_amount" ∈ t.cols
  · have hnn : ∀ r ∈ t.rows, getVal r "total_amount" ≠ Value.null := by
      intro r hr
      rcases (gt0_iff _).mp (hrow r hr).2.2.1 with ⟨a, ha, _⟩
      rcases (gt0_iff _).mp (hrow r hr).2.2.2 with ⟨a2, ha2, _⟩
      rw [hta hta2 r hr, ha, ha2]
      simp [mulVal]
    have haid : addTotal t = t := addTotal_eq_self hq hp hta2 (hta hta2) hnn
    refine ⟨t, ?_, ?_⟩ <;>
      rw [transform_clean hD hN hcols hq hp hnd hrow, haid]
  · have hrowsOut : (addTotal t).rows = t.rows.map (fun r =>
        setVal r "total_amount"
          (mulVal (getVal r "quantity") (getVal r "price"))) :=
      addTotal_rows hq hp
    have hcolsOut : (addTotal t).cols = t.cols ++ ["total_amount"] :=
      addTotal_cols_of_not_mem hq hp hta2
    have hkeys : ∀ r ∈ t.rows, "total_amount" ∉ keys r := by
      intro r hr
      rw [hwf r hr]
      exact hta2
    have htidOut : "transaction_id" ∈ (addTotal t).cols := by
      rw [hcolsOut]; exact List.mem_append_left _ hcols.1
    have hdateOut : "date" ∈ (addTotal t).cols := by
      rw [hcolsOut]; exact List.mem_append_left _ hcols.2
    have hqOut : "quantity" ∈ (addTotal t).cols := by
      rw [hcolsOut]; exact List.mem_append_left _ hq
    have hpOut : "price" ∈ (addTotal t).cols := by
      rw [hcolsOut]; exact List.mem_append_left _ hp
    have htaOut : "total_amount" ∈ (addTotal t).cols := by
      rw [hcolsOut]
      exact List.mem_append_right _ (List.mem_singleton.mpr rfl)
    have hgets : ∀ c2 : String, c2 ≠ "total_amount" → ∀ r : Row,
        getVal (setVal r "total_amount"
          (mulVal (getVal r "quantity") (getVal r "price"))) c2 = getVal r c2 :=
      fun c2 hc2 r => getVal_setVal_ne r hc2 _
    have hrowOut : ∀ r2 ∈ (addTotal t).rows, CleanRow r2 := by
      intro r2 hr2
      rw [hrowsOut] at hr2
      rcases List.mem_map.mp hr2 with ⟨r, hr, he⟩
      rcases hrow r hr with ⟨h1, h2, h3, h4⟩
      refine ⟨?_, ?_, ?_, ?_⟩ <;> rw [← he]
      · rw [hgets "transaction_id" (by decide) r]; exact h1
      · rw [hgets "date" (by decide) r]; exact h2
      · rw [hgets "quantity" (by decide) r]; exact h3
      · rw [hgets "price" (by decide) r]; exact h4
    have hndOut : (addTotal t).rows.Nodup := by
      rw [hrowsOut]
      refine hnd.map_on ?_
      intro r1 h1 r2 h2 heq
      rw [setVal_of_not_mem_keys (hkeys r1 h1),
        setVal_of_not_mem_keys (hkeys r2 h2)] at heq
      refine List.append_inj_left heq ?_
      have hl1 : keys r1 = t.cols := hwf r1 h1
      have hl2 : keys r2 = t.cols := hwf r2 h2
      have hlen1 := congrArg List.length hl1
      have hlen2 := congrArg List.length hl2
      rw [keys, List.length_map] at hlen1 hlen2
      rw [hlen1, hlen2]
    have hconsOut : ∀ r2 ∈ (addTotal t).rows,
        getVal r2 "total_amount" =
          mulVal (getVal r2 "quantity") (getVal r2 "price") := by
      intro r2 hr2
      rw [hrowsOut] at hr2
      rcases List.mem_map.mp hr2 with ⟨r, hr, he⟩
      rw [← he, getVal_setVal_self, hgets "quantity" (by decide) r,
        hgets "price" (by decide) r]
    have hnnOut : ∀ r2 ∈ (addTotal t).rows,
        getVal r2 "total_amount" ≠ Value.null := by
      intro r2 hr2
      rcases (gt0_iff _).mp (hrowOut r2 hr2).2.2.1 with ⟨a, ha, _⟩
      rcases (gt0_iff _).mp (hrowOut r2 hr2).2.2.2 with ⟨a2, ha2, _⟩
      rw [hconsOut r2 hr2, ha, ha2]
      simp [mulVal]
    have htr2 : transform pD pN (addTotal t) = Except.ok (addTotal (addTotal t)) :=
      transform_clean hD hN ⟨htidOut, hdateOut⟩ hqOut hpOut hndOut hrowOut
    have haid2 : addTotal (addTotal t) = addTotal t :=
      addTotal_eq_self hqOut hpOut htaOut hconsOut hnnOut
    exact ⟨addTotal t, transform_clean hD hN hcols hq hp hnd hrow,
      by rw [htr2, haid2]⟩

/-! ### Claims -/

/-- Claim C1: for a table of `n` rows and a configured batch size `b > 0`,
`load` issues the writes of `chunkList b rows` in order — `ceil(n/b)`
consecutive chunks of at most `b` rows each whose concatenation is the
table, the first written with the given `if_exists` mode and every later
one with append — and returns `True`; an empty table produces zero chunk
writes and `load` returns `True`. -/
theorem claim_C1_batching (b : Nat) (hb : 0 < b) (fails : Nat → Bool)
    (hf : ∀ k, fails k = false) (rows : List Row) (name : String) (m : Mode) :
    load (some ()) fails b rows name m =
      (withModes name m (chunkList b rows), (rows.length + b - 1) / b, true) ∧
    ((withModes name m (chunkList b rows)).map Chunk.data).flatten = rows ∧
    (∀ c ∈ withModes name m (chunkList b rows), c.data.length ≤ b) ∧
    (∀ c ∈ (withModes name m (chunkList b rows)).tail, c.mode = Mode.append) ∧
    (∀ c, (withModes name m (chunkList b rows)).head? = some c → c.mode = m) ∧
    (rows = [] → load (some ()) fails b rows name m = ([], 0, true)) := by
  have hmain : load (some ()) fails b rows name m =
      (withModes name m (chunkList b rows),
       (withModes name m (chunkList b rows)).length, true) := by
    simp only [load]
    rw [if_neg (by omega : ¬ b = 0)]
    exact runWrites_all_ok fails _ 0 (fun j _ => hf _)
  refine ⟨?_, ?_, ?_, ?_, ?_, ?_⟩
  · rw [hmain, withModes_length, chunkList_length]
  · rw [withModes_map_data]
    exact chunkList_flatten b hb rows
  · intro c hc
    exact chunkList_mem_length_le b rows c.data (withModes_mem_data name m _ c hc)
  · exact withModes_tail_mode name m _
  · exact withModes_head_mode name m _
  · intro he
    subst he
    rw [hmain, chunkList_nil]
    rfl

/-- Witness for C1 at batch size 3 over the four-row sample table with a
never-failing destination. -/
theorem claim_C1_batching_witness :
    0 < 3 ∧ (∀ k, (fun _ : Nat => false) k = false) ∧
    (load (some ()) (fun _ => false) 3 sampleTable.rows "fact_transactions"
        Mode.replace =
      (withModes "fact_transactions" Mode.replace (chunkList 3 sampleTable.rows),
       (sampleTable.rows.length + 3 - 1) / 3, true) ∧
    ((withModes "fact_transactions" Mode.replace
        (chunkList 3 sampleTable.rows)).map Chunk.data).flatten =
      sampleTable.rows ∧
    (∀ c ∈ withModes "fact_transactions" Mode.replace
        (chunkList 3 sampleTable.rows), c.data.length ≤ 3) ∧
    (∀ c ∈ (withModes "fact_transactions" Mode.replace
        (chunkList 3 sampleTable.rows)).tail, c.mode = Mode.append) ∧
    (∀ c, (withModes "fact_transactions" Mode.replace
        (chunkList 3 sampleTable.rows)).head? = some c → c.mode = Mode.replace) ∧
    (sampleTable.rows = [] →
      load (some ()) (fun _ => false) 3 sampleTable.rows "fact_transactions"
        Mode.replace = ([], 0, true))) :=
  ⟨by decide, fun _ => rfl,
   claim_C1_batching 3 (by decide) (fun _ => false) (fun _ => rfl)
     sampleTable.rows "fact_transactions" Mode.replace⟩

/-- Claim C2: if the first failing chunk write is the one at 0-based
index `k` (so 1-based chunk `k+1`), `load` commits exactly the earlier
chunks, makes exactly `k+1` write attempts (so no later chunk is
attempted), and returns `False`; the committed prefix is not rolled
back. -/
theorem claim_C2_partial_failure (b : Nat) (hb : 0 < b) (fails : Nat → Bool)
    (rows : List Row) (name : String) (m : Mode) (k : Nat)
    (hk : k < (withModes name m (chunkList b rows)).length)
    (h1 : ∀ j, j < k → fails j = false) (h2 : fails k = true) :
    load (some ()) fails b rows name m =
      ((withModes name m (chunkList b rows)).take k, k + 1, false) ∧
    k + 1 ≤ (withModes name m (chunkList b rows)).length := by
  constructor
  · simp only [load]
    rw [if_neg (by omega : ¬ b = 0)]
    refine runWrites_fail_at fails _ 0 k hk ?_ ?_
    · intro i hi
      rw [Nat.zero_add]
      exact h1 i hi
    · rw [Nat.zero_add]
      exact h2
  · omega

/-- Witness for C2: batch size 1 over the four-row sample table, with the
second write (index 1) failing. -/
theorem claim_C2_partial_failure_witness :
    0 < 1 ∧
    1 < (withModes "fact_transactions" Mode.append
      (chunkList 1 sampleTable.rows)).length ∧
    (∀ j, j < 1 → (fun j2 : Nat => decide (j2 = 1)) j = false) ∧
    (fun j2 : Nat => decide (j2 = 1)) 1 = true ∧
    (load (some ()) (fun j2 => decide (j2 = 1)) 1 sampleTable.rows
        "fact_transactions" Mode.append =
      ((withModes "fact_transactions" Mode.append
          (chunkList 1 sampleTable.rows)).take 1, 1 + 1, false) ∧
    1 + 1 ≤ (withModes "fact_transactions" Mode.append
      (chunkList 1 sampleTable.rows)).length) :=
  ⟨by decide, by decide, by decide, by decide,
   claim_C2_partial_failure 1 (by decide) (fun j2 => decide (j2 = 1))
     sampleTable.rows "fact_transactions" Mode.append 1 (by decide)
     (by decide) (by decide)⟩

/-- Claim C3: when the quantity and price columns exist, every row
surviving `transform` carries a `total_amount` computed from the raw
pre-coercion operands of some input row (whose coercions are the row's
final quantity and price): numeric raw operands give exactly their
product, non-numeric raw operands give the invalid (null) marker rather
than failing the stage. -/
theorem claim_C3_total_amount (pD : Value → Option Value)
    (pN : Value → Option Int) (t out : Table)
    (hq : "quantity" ∈ t.cols) (hp : "price" ∈ t.cols)
    (htr : transform pD pN t = Except.ok out) :
    ∀ r2 ∈ out.rows, ∃ r0 ∈ t.rows,
      getVal r2 "total_amount" =
        mulVal (getVal r0 "quantity") (getVal r0 "price") ∧
      getVal r2 "quantity" = toNumOrNull pN (getVal r0 "quantity") ∧
      getVal r2 "price" = toNumOrNull pN (getVal r0 "price") ∧
      (∀ a a2 : Int, getVal r0 "quantity" = Value.num a →
        getVal r0 "price" = Value.num a2 →
        getVal r2 "total_amount" = Value.num (a * a2)) ∧
      (((∀ a : Int, getVal r0 "quantity" ≠ Value.num a) ∨
        (∀ a2 : Int, getVal r0 "price" ≠ Value.num a2)) →
        getVal r2 "total_amount" = Value.null) := by
  rcases transform_ok_elim htr with ⟨hc, rs, hps, hout⟩
  intro r2 hr2
  rcases transform_out_rows hq hp hout r2 hr2 with ⟨r3, hr3, he, _, _⟩
  rcases parseDates_mem hps r3 hr3 with ⟨r1, hr1, v, hv, he3⟩
  have hr0 : r1 ∈ t.rows := mem_of_mem_dedupFirst (List.mem_filter.mp hr1).1
  have hq3 : getVal r3 "quantity" = getVal r1 "quantity" := by
    rw [he3]
    exact getVal_setVal_ne r1 (by decide) v
  have hp3 : getVal r3 "price" = getVal r1 "price" := by
    rw [he3]
    exact getVal_setVal_ne r1 (by decide) v
  have hta2 : getVal r2 "total_amount" =
      mulVal (getVal r3 "quantity") (getVal r3 "price") := by
    rw [he, getVal_setVal_ne _ (by decide) _, getVal_setVal_ne _ (by decide) _,
      getVal_setVal_self]
  have hq2 : getVal r2 "quantity" = toNumOrNull pN (getVal r3 "quantity") := by
    rw [he, getVal_setVal_ne _ (by decide) _, getVal_setVal_self,
      getVal_setVal_ne r3 (by decide) _]
  have hp2 : getVal r2 "price" = toNumOrNull pN (getVal r3 "price") := by
    rw [he, getVal_setVal_self, getVal_setVal_ne _ (by decide) _,
      getVal_setVal_ne r3 (by decide) _]
  refine ⟨r1, hr0, by rw [hta2, hq3, hp3], by rw [hq2, hq3],
    by rw [hp2, hp3], ?_, ?_⟩
  · intro a a2 ha ha2
    rw [hta2, hq3, hp3, ha, ha2]
    rfl
  · intro hcase
    rw [hta2, hq3, hp3]
    rcases hcase with hno | hno
    · cases hqv : getVal r1 "quantity" with
      | num a => exact absurd hqv (hno a)
      | null => rfl
      | str s => rfl
      | date d => rfl
    · cases hqv : getVal r1 "quantity" <;>
        cases hpv : getVal r1 "price" <;>
        first
          | rfl
          | exact absurd hpv (hno _)

/-- Witness for C3 on the §8 sample table: its surviving row has
`total_amount = 2 * 5`. -/
theorem claim_C3_total_amount_witness :
    "quantity" ∈ sampleTable.cols ∧ "price" ∈ sampleTable.cols ∧
    transform pDate0 pNum0 sampleTable = Except.ok sampleOut ∧
    (∀ r2 ∈ sampleOut.rows, ∃ r0 ∈ sampleTable.rows,
      getVal r2 "total_amount" =
        mulVal (getVal r0 "quantity") (getVal r0 "price") ∧
      getVal r2 "quantity" = toNumOrNull pNum0 (getVal r0 "quantity") ∧
      getVal r2 "price" = toNumOrNull pNum0 (getVal r0 "price") ∧
      (∀ a a2 : Int, getVal r0 "quantity" = Value.num a →
        getVal r0 "price" = Value.num a2 →
        getVal r2 "total_amount" = Value.num (a * a2)) ∧
      (((∀ a : Int, getVal r0 "quantity" ≠ Value.num a) ∨
        (∀ a2 : Int, getVal r0 "price" ≠ Value.num a2)) →
        getVal r2 "total_amount" = Value.null)) :=
  ⟨by decide, by decide, by decide,
   claim_C3_total_amount pDate0 pNum0 sampleTable sampleOut (by decide)
     (by decide) (by decide)⟩

/-- Claim C4: when the quantity and price columns exist, every row in the
output of `transform` has a positive numeric quantity and a positive
numeric price; rows violating either bound, including rows whose value
could not be coerced (the missing marker compares false to `> 0`), are
absent. -/
theorem claim_C4_positive_rows (pD : Value → Option Value)
    (pN : Value → Option Int) (t out : Table)
    (hq : "quantity" ∈ t.cols) (hp : "price" ∈ t.cols)
    (htr : transform pD pN t = Except.ok out) :
    ∀ r2 ∈ out.rows,
      (∃ a : Int, getVal r2 "quantity" = Value.num a ∧ 0 < a) ∧
      (∃ a2 : Int, getVal r2 "price" = Value.num a2 ∧ 0 < a2) := by
  rcases transform_ok_elim htr with ⟨hc, rs, hps, hout⟩
  intro r2 hr2
  rcases transform_out_rows hq hp hout r2 hr2 with ⟨r3, hr3, _, hgq, hgp⟩
  exact ⟨(gt0_iff _).mp hgq, (gt0_iff _).mp hgp⟩

/-- Witness for C4 on the §8 sample table. -/
theorem claim_C4_positive_rows_witness :
    "quantity" ∈ sampleTable.cols ∧ "price" ∈ sampleTable.cols ∧
    transform pDate0 pNum0 sampleTable = Except.ok sampleOut ∧
    (∀ r2 ∈ sampleOut.rows,
      (∃ a : Int, getVal r2 "quantity" = Value.num a ∧ 0 < a) ∧
      (∃ a2 : Int, getVal r2 "price" = Value.num a2 ∧ 0 < a2)) :=
  ⟨by decide, by decide, by decide,
   claim_C4_positive_rows pDate0 pNum0 sampleTable sampleOut (by decide)
     (by decide) (by decide)⟩

/-- Claim C5: the deduplication step of `transform` (its first step)
yields rows with no two fully-equal entries, a subsequence of the input
rows, equal to the keep-the-first-occurrence-in-order reading of the
spec. -/
theorem claim_C5_dedup (t : Table) :
    (dropDuplicates t).rows.Nodup ∧
    (dropDuplicates t).rows.Sublist t.rows ∧
    (dropDuplicates t).rows = keepFirsts t.rows :=
  ⟨dedupFirst_nodup t.rows, dedupFirst_sublist t.rows,
   dedupFirst_eq_keepFirsts t.rows⟩

/-- Claim C6: if a row surviving the null-drop step has an unparseable
date value, `transform` fails with an error and returns no table. -/
theorem claim_C6_unparseable_date (pD : Value → Option Value)
    (pN : Value → Option Int) (t t2 : Table) (r : Row)
    (h2 : dropnaRequired (dropDuplicates t) = Except.ok t2)
    (hr : r ∈ t2.rows) (hbad : pD (getVal r "date") = none) :
    ∃ e, transform pD pN t = Except.error e := by
  by_cases hc : "transaction_id" ∈ t.cols ∧ "date" ∈ t.cols
  · rw [dropnaRequired_ok hc] at h2
    have ht2 : t2 = ⟨t.cols, (dedupFirst t.rows).filter requiredNonNull⟩ :=
      (Except.ok.inj h2).symm
    rw [ht2] at hr
    rcases parseDates_error_of_mem hr hbad with ⟨e, he⟩
    exact ⟨e, transform_error_of_parseDates hc he⟩
  · rw [dropDuplicates, dropnaRequired, if_neg hc] at h2
    cases h2

/-- Witness for C6: the `badDateTable` row survives the null-drop but its
date string is unparseable. -/
theorem claim_C6_unparseable_date_witness :
    dropnaRequired (dropDuplicates badDateTable) = Except.ok badDateTable ∧
    [("transaction_id", Value.num 7), ("date", Value.str "not-a-date"),
     ("quantity", Value.num 1), ("price", Value.num 1)] ∈ badDateTable.rows ∧
    pDate0 (getVal [("transaction_id", Value.num 7),
      ("date", Value.str "not-a-date"), ("quantity", Value.num 1),
      ("price", Value.num 1)] "date") = none ∧
    ∃ e, transform pDate0 pNum0 badDateTable = Except.error e :=
  ⟨by decide, by decide, by decide,
   claim_C6_unparseable_date pDate0 pNum0 badDateTable badDateTable
     [("transaction_id", Value.num 7), ("date", Value.str "not-a-date"),
      ("quantity", Value.num 1), ("price", Value.num 1)]
     (by decide) (by decide) (by decide)⟩

/-- Claim C7: a source path ending in neither `.csv` nor `.xlsx` makes
`extract` raise the unsupported-format error, and `run` on such a path
returns `False` having stopped at the extract stage, before transform or
load. -/
theorem claim_C7_unsupported_format
    (readCsv readXlsx : String → Except String Table)
    (pD : Value → Option Value) (pN : Value → Option Int)
    (fails : Nat → Bool) (b : Nat) (p tgt : String)
    (h1 : strEndsWith p ".csv" = false) (h2 : strEndsWith p ".xlsx" = false) :
    extract readCsv readXlsx p =
      Except.error ("Unsupported file format: " ++ p) ∧
    run true readCsv readXlsx pD pN fails b p tgt =
      ⟨false, RunStop.extractFailed⟩ := by
  have he : extract readCsv readXlsx p =
      Except.error ("Unsupported file format: " ++ p) := by
    simp [extract, h1, h2]
  refine ⟨he, ?_⟩
  simp [run, he]

/-- Witness for C7 at the `.json` path of the §8 scenario. -/
theorem claim_C7_unsupported_format_witness :
    strEndsWith "data/sample_transactions.json" ".csv" = false ∧
    strEndsWith "data/sample_transactions.json" ".xlsx" = false ∧
    (extract (fun _ => Except.ok ⟨[], []⟩) (fun _ => Except.ok ⟨[], []⟩)
        "data/sample_transactions.json" =
      Except.error ("Unsupported file format: " ++
        "data/sample_transactions.json") ∧
    run true (fun _ => Except.ok ⟨[], []⟩) (fun _ => Except.ok ⟨[], []⟩)
        pDate0 pNum0 (fun _ => false) 1000
        "data/sample_transactions.json" "fact_transactions" =
      ⟨false, RunStop.extractFailed⟩) :=
  ⟨by decide, by decide,
   claim_C7_unsupported_format (fun _ => Except.ok ⟨[], []⟩)
     (fun _ => Except.ok ⟨[], []⟩) pDate0 pNum0 (fun _ => false) 1000
     "data/sample_transactions.json" "fact_transactions"
     (by decide) (by decide)⟩

/-- Claim C8 as frozen is false on the code: `staleTotalTable` meets every
premise listed in the claim — well-formed, no duplicate rows, required
fields non-null, dates already parsed, positive numeric quantity and
price, under parsers that fix parsed dates and numerics — yet applying
`transform` a second time to the output of `transform` removes a row,
because recomputing `total_amount` collapses two rows that differed only
in a stale pre-existing `total_amount` value into fully-equal
duplicates. -/
theorem claim_C8_counterexample :
    staleTotalTable.Wf ∧ staleTotalTable.rows.Nodup ∧
    (∀ r ∈ staleTotalTable.rows, CleanRow r) ∧
    (∀ d, pDate0 (Value.date d) = some (Value.date d)) ∧
    (∀ a : Int, pNum0 (Value.num a) = some a) ∧
    transform pDate0 pNum0 staleTotalTable = Except.ok staleTotalOut ∧
    transform pDate0 pNum0 staleTotalOut ≠ Except.ok staleTotalOut :=
  ⟨by decide, by decide, by decide, fun _ => rfl, fun _ => rfl, by decide,
   by decide⟩

/-- Witness for the amended C8 on a clean one-row table without a
pre-existing `total_amount` column. -/
theorem claim_C8_idempotent_witness :
    (∀ d, pDate0 (Value.date d) = some (Value.date d)) ∧
    (∀ a : Int, pNum0 (Value.num a) = some a) ∧
    cleanTable.Wf ∧
    ("transaction_id" ∈ cleanTable.cols ∧ "date" ∈ cleanTable.cols) ∧
    "quantity" ∈ cleanTable.cols ∧ "price" ∈ cleanTable.cols ∧
    cleanTable.rows.Nodup ∧ (∀ r ∈ cleanTable.rows, CleanRow r) ∧
    ("total_amount" ∈ cleanTable.cols → ∀ r ∈ cleanTable.rows,
      getVal r "total_amount" =
        mulVal (getVal r "quantity") (getVal r "price")) ∧
    ∃ out, transform pDate0 pNum0 cleanTable = Except.ok out ∧
      transform pDate0 pNum0 out = Except.ok out :=
  ⟨fun _ => rfl, fun _ => rfl, by decide, by decide, by decide, by decide,
   by decide, by decide, by decide,
   transform_idempotent_on_clean (fun _ => rfl) (fun _ => rfl) (by decide)
     (by decide) (by decide) (by decide) (by decide) (by decide) (by decide)⟩

/-- Claim C9: the `duplicate_records` count of `validate_data` equals the
row count minus the row count left by the Transformer's duplicate-removal
step — the two use the same full-row equality. -/
theorem claim_C9_duplicate_count (t : Table) :
    (validate_data t).duplicate_records =
      t.rows.length - (dropDuplicates t).rows.length :=
  dupCount_eq_sub t.rows

/-- Claim C10: with no database connection established, `load` performs
no chunk write, makes no write attempt, and returns `False` instead of
raising. -/
theorem claim_C10_no_engine (fails : Nat → Bool) (b : Nat) (rows : List Row)
    (name : String) (m : Mode) :
    load none fails b rows name m = ([], 0, false) := rfl

end RetailETL
